import Mathlib

/-!
Verification development for the spz-rs packed Gaussian-splat codec.

The Rust source is shallowly embedded: f32 values are modelled as exact
rationals (every arithmetic rule of the source is translated literally;
all concrete inputs appearing in the theorems below are exactly
representable in f32, and the only tolerance-style claims have slack far
above the f32 rounding scale).  The two transcendental helpers of the
source (sigmoid via exp, inverse sigmoid via log) are handled as follows:
their rational arithmetic part is embedded computably, and the exp/log
postcomposition is applied at the property level over the reals.
Machine-integer casts are modelled with explicit clamping/ truncation
following the semantics of Rust saturating float-to-int casts.
-/

namespace Spz

/-- Rust `f32::round`: round half away from zero (exact over the
rationals). -/
def rustRound (q : ℚ) : ℤ :=
  if 0 ≤ q then ⌊q + 1 / 2⌋ else -⌊-q + 1 / 2⌋

/-- Rust saturating cast `x as u8` for a float `x`: truncate toward zero
then clamp into `[0, 255]`.  For negative inputs truncation and flooring
both land below 1, and saturation sends either to 0, so clamping the
floor is an exact model for every rational input. -/
def rustCastU8 (q : ℚ) : ℕ :=
  (max 0 (min 255 ⌊q⌋)).toNat

/-- Rust saturating cast `x as i32` for a rounded float value. -/
def rustCastI32 (z : ℤ) : ℤ :=
  max (-2147483648) (min 2147483647 z)

/-- `FixedPoint24::into` (fixedpoint24.rs): multiply by `2^fractional_bits`,
round, saturating-cast to i32, clamp to the signed 24-bit range, mask to
24 bits in two's complement, and pack as three little-endian bytes. -/
def fp24Into (v : ℚ) (fractionalBits : ℕ) : List ℕ :=
  let scaled := rustRound (v * 2 ^ fractionalBits)
  let intVal := rustCastI32 scaled
  let clipped := max (-0x800000) (min 0x7FFFFF intVal)
  let bits := (clipped % 2 ^ 24).toNat
  [bits % 256, bits / 256 % 256, bits / 65536 % 256]

/-- `FixedPoint24::from` (fixedpoint24.rs): rebuild the 24-bit value from
three little-endian bytes, sign-extend bit 23 (the source's
`((raw << 8) as i32) >> 8`, which maps `raw ≥ 2^23` to `raw - 2^24`), and
divide by `2^fractional_bits`. -/
def fp24From (bytes : List ℕ) (fractionalBits : ℕ) : ℚ :=
  let raw := bytes.headD 0 + 256 * (bytes.drop 1).headD 0 + 65536 * (bytes.drop 2).headD 0
  let extended : ℤ := if raw < 2 ^ 23 then (raw : ℤ) else (raw : ℤ) - 2 ^ 24
  (extended : ℚ) / 2 ^ fractionalBits

/-- `FixedPoint24::optimal_fractional_bits` (fixedpoint24.rs): zero
short-circuits to 0; otherwise take `ceil(log2(ceil(|v|)))` integer bits
and return `24 - bits - 1` (usize subtraction; the claims below never
reach an underflowing input, which the source would panic on). -/
def optimalFractionalBits (v : ℚ) : ℕ :=
  if v = 0 then 0
  else 24 - Nat.clog 2 ⌈|v|⌉.toNat - 1

/-- Body of `compute_fixed_point_fractional_bits` after the
`assert!(bit_count == 24)`: the maximum of `|v|.ceil()` over the batch
(0 for an empty batch, matching `unwrap_or(0.0)`), fed to
`optimal_fractional_bits`. -/
def computeFixedPointFractionalBitsCore (floats : List ℚ) : ℕ :=
  optimalFractionalBits ((floats.map (fun v => (⌈|v|⌉ : ℚ))).foldr max 0)

/-- `compute_fixed_point_fractional_bits` (fixedpoint24.rs): asserts the
requested budget is 24 (modelled as `none` on violation), then applies
the batch rule. -/
def computeFixedPointFractionalBits (floats : List ℚ) (bitCount : ℕ) : Option ℕ :=
  if bitCount = 24 then some (computeFixedPointFractionalBitsCore floats) else none

/-- A three-component float vector (vek `Vec3<f32>`), modelled over ℚ. -/
structure V3 where
  x : ℚ
  y : ℚ
  z : ℚ
deriving DecidableEq, Repr

/-- `Vec3::zero()`. -/
def v3zero : V3 := ⟨0, 0, 0⟩

/-- A quaternion (vek `Quaternion<f32>`, xyzw), modelled over ℚ. -/
structure Quat where
  x : ℚ
  y : ℚ
  z : ℚ
  w : ℚ
deriving DecidableEq, Repr

/-- `SphericalHarmonicsOrder` (spherical_harmonics.rs). -/
inductive SphericalHarmonicsOrder where
  | order0
  | order1
  | order2
  | order3
deriving DecidableEq, Repr

namespace SphericalHarmonicsOrder

/-- `SphericalHarmonicsOrder::index`. -/
def index : SphericalHarmonicsOrder → ℕ
  | order0 => 0
  | order1 => 1
  | order2 => 2
  | order3 => 3

/-- `SphericalHarmonicsOrder::order_for_degree`. -/
def orderForDegree : ℕ → Option SphericalHarmonicsOrder
  | 0 => some order0
  | 1 => some order1
  | 2 => some order2
  | 3 => some order3
  | _ => none

/-- `SphericalHarmonicsOrder::vector_count`. -/
def vectorCount : SphericalHarmonicsOrder → ℕ
  | order0 => 0
  | order1 => 3
  | order2 => 8
  | order3 => 15

/-- `SphericalHarmonicsOrder::scalar_count`. -/
def scalarCount (o : SphericalHarmonicsOrder) : ℕ :=
  o.vectorCount * 3

end SphericalHarmonicsOrder

/-- The `SphericalHarmonics` enum (spherical_harmonics.rs).  The Rust
variants carry fixed-size arrays of 0/3/8/15 vectors; the model stores
the allocated order tag together with the vector list (every value the
embedded operations produce keeps `values.length = ord.vectorCount`). -/
structure SphericalHarmonics where
  ord : SphericalHarmonicsOrder
  values : List V3
deriving DecidableEq, Repr

namespace SphericalHarmonics

/-- `SphericalHarmonics::default()`: the Order0 variant. -/
def default : SphericalHarmonics := ⟨.order0, []⟩

/-- `Vec::resize(n, Vec3::zero())` on the stored vectors: truncate or
zero-fill to length `n`. -/
def resizeTo (values : List V3) (n : ℕ) : List V3 :=
  values.take n ++ List.replicate (n - values.length) v3zero

/-- `SphericalHarmonics::set_values` (spherical_harmonics.rs): classify by
length — 0 gives Order0, 1..=3 give Order1 (zero-filled to 3), 4..=8
give Order2 (to 8), 9..=15 give Order3 (to 15) — and panic (`none`) for
more than 15 vectors. -/
def setValues (values : List V3) : Option SphericalHarmonics :=
  if values.length = 0 then some ⟨.order0, []⟩
  else if values.length ≤ 3 then some ⟨.order1, resizeTo values 3⟩
  else if values.length ≤ 8 then some ⟨.order2, resizeTo values 8⟩
  else if values.length ≤ 15 then some ⟨.order3, resizeTo values 15⟩
  else none

/-- `SphericalHarmonics::scalars`: flatten the vectors, vector-major. -/
def scalars (sh : SphericalHarmonics) : List ℚ :=
  sh.values.flatMap (fun v => [v.x, v.y, v.z])

end SphericalHarmonics

/-- Group a flat scalar list into three-component vectors (the decode
direction of Rust `chunks(3)` followed by `Vec3::new(c[0], c[1], c[2])`;
every list it is applied to below has length divisible by 3, which is
also what keeps the source's chunk indexing in bounds). -/
def chunk3 : List ℚ → List V3
  | a :: b :: c :: rest => ⟨a, b, c⟩ :: chunk3 rest
  | _ => []

/-- `SphericalHarmonics::set_scalars`: group into vectors and classify. -/
def SphericalHarmonics.setScalars (flat : List ℚ) : Option SphericalHarmonics :=
  SphericalHarmonics.setValues (chunk3 flat)

/-- `quantize_sh` (spz_format.rs): scale to a byte, snap to the nearest
multiple of the bucket size with i32 division (toward zero), clamp to
`[0, 255]`. -/
def quantizeSh (x : ℚ) (bucketSize : ℤ) : ℕ :=
  let q : ℤ := rustRound (x * 128) + 128
  let q := Int.tdiv (q + Int.tdiv bucketSize 2) bucketSize * bucketSize
  (max 0 (min 255 q)).toNat

/-- `unquantize_sh` (spz_format.rs). -/
def unquantizeSh (x : ℕ) : ℚ :=
  ((x : ℚ) - 128) / 128

/-- `SphericalHarmonics::spz_bytes` (spz_format.rs): assert the scalar
count matches the order (`none` models the assert firing), then run the
first quantization loop `while j < 9` — the loop bound is unconditional,
so whenever fewer than 9 scalars are present (exactly the Order0 case,
scalar_count = 0) the body indexes `scalars[i + j]` (and writes
`sh[i + j]`) out of bounds and panics, modelled as the second `none`.
With at least 9 scalars, the first 9 are quantized with bucket
`2^(8-5)` and the remaining `while j < scalar_count` loop quantizes the
rest with bucket `2^(8-4)`. -/
def SphericalHarmonics.spzBytes (sh : SphericalHarmonics) : Option (List ℕ) :=
  let scalars := sh.scalars
  if scalars.length = sh.ord.scalarCount then
    if 9 ≤ scalars.length then
      some ((scalars.take 9).map (fun x => quantizeSh x 8) ++
        (scalars.drop 9).map (fun x => quantizeSh x 16))
    else none
  else
    none

/-- `SphericalHarmonics::from_spz_bytes` (spz_format.rs): unquantize every
byte and rebuild the variant via `set_scalars` (`none` models the panic
on an impossible scalar count, never reached by the decoder). -/
def SphericalHarmonics.fromSpzBytes (bytes : List ℕ) : Option SphericalHarmonics :=
  SphericalHarmonics.setScalars (bytes.map unquantizeSh)

/-- `UnpackedGaussian` (unpacked_gaussian.rs). -/
structure UnpackedGaussian where
  position : V3
  rotation : Quat
  scales : V3
  color : V3
  alpha : ℚ
  sphericalHarmonics : SphericalHarmonics
deriving DecidableEq, Repr

/-- `UnpackedGaussian::default()`: zero position and color, identity
rotation, unit scales, zero alpha, Order0 spherical harmonics. -/
def UnpackedGaussian.default : UnpackedGaussian :=
  ⟨v3zero, ⟨0, 0, 0, 1⟩, ⟨1, 1, 1⟩, v3zero, 0, SphericalHarmonics.default⟩

/-- The spz `Header` (spz_format.rs). -/
structure Header where
  magic : ℕ
  version : ℕ
  numPoints : ℕ
  shDegree : ℕ
  fractionalBits : ℕ
  flags : ℕ
  reserved : ℕ
deriving DecidableEq, Repr

namespace Header

/-- `Header::new`: fill in the fixed magic 0x5053474E, version 2 and a
zero reserved byte. -/
def new (numPoints shDegree fractionalBits flags : ℕ) : Header :=
  ⟨0x5053474e, 2, numPoints, shDegree, fractionalBits, flags, 0⟩

/-- `Header::is_valid`: magic, version and SH degree are checked; the
remaining fields are not inspected. -/
def isValid (h : Header) : Bool :=
  h.magic == 0x5053474e && h.version == 2 && h.shDegree ≤ 3

/-- `Header::from_bytes`: little-endian u32 fields then four bytes. -/
def fromBytes (b : List ℕ) : Header :=
  let at_ := fun i => (b.drop i).headD 0
  ⟨at_ 0 + 256 * at_ 1 + 65536 * at_ 2 + 16777216 * at_ 3,
    at_ 4 + 256 * at_ 5 + 65536 * at_ 6 + 16777216 * at_ 7,
    at_ 8 + 256 * at_ 9 + 65536 * at_ 10 + 16777216 * at_ 11,
    at_ 12, at_ 13, at_ 14, at_ 15⟩

/-- `bytemuck::bytes_of(&header)` for the `#[repr(C)]` header: the three
u32 fields little-endian followed by the four byte fields. -/
def toBytes (h : Header) : List ℕ :=
  let le32 := fun n : ℕ => [n % 256, n / 256 % 256, n / 65536 % 256, n / 16777216 % 256]
  le32 h.magic ++ le32 h.version ++ le32 h.numPoints ++
    [h.shDegree % 256, h.fractionalBits % 256, h.flags % 256, h.reserved % 256]

end Header

/-- Termination status of one `write_spz_to_stream` call: clean return,
early error return, or a fired `assert!`. -/
inductive WriteStatus where
  | ok
  | err (msg : String)
  | panicked
deriving DecidableEq, Repr

/-- The position block of `write_spz_to_stream`: each point contributes
its three components fixed-point encoded (3 bytes each). -/
def positionBlock (gaussians : List UnpackedGaussian) (fractionalBits : ℕ) : List ℕ :=
  gaussians.flatMap (fun g =>
    [g.position.x, g.position.y, g.position.z].flatMap (fun v => fp24Into v fractionalBits))

/-- The alpha block: one byte per point.  The source computes
`(sigmoid(alpha) * 255.0) as u8`; sigmoid is transcendental, so the
writer model is parameterized by the per-alpha byte function (none of
the block-structure facts proved below depend on the byte values). -/
def alphaBlock (alphaByte : ℚ → ℕ) (gaussians : List UnpackedGaussian) : List ℕ :=
  gaussians.map (fun g => alphaByte g.alpha)

/-- The color block: `(((v * 0.15) + 0.5) * 255.0) as u8` per component. -/
def colorBlock (gaussians : List UnpackedGaussian) : List ℕ :=
  gaussians.flatMap (fun g =>
    [g.color.x, g.color.y, g.color.z].map (fun v => rustCastU8 ((v * (3 / 20) + 1 / 2) * 255)))

/-- The scale block: `((v + 10.0) * 16.0) as u8` per component. -/
def scaleBlock (gaussians : List UnpackedGaussian) : List ℕ :=
  gaussians.flatMap (fun g =>
    [g.scales.x, g.scales.y, g.scales.z].map (fun v => rustCastU8 ((v + 10) * 16)))

/-- The rotation block: normalize the quaternion (parameter, since the
source's `normalized()` divides by a square root), then push one byte
for each of x, y, z — `v * (if w < 0 then -127.5 else 127.5) + 127.5`
cast to u8.  Exactly three bytes per point, by the `Vec3` shape of
`q.into_vec3()`. -/
def rotationBlock (normalize : Quat → Quat) (gaussians : List UnpackedGaussian) : List ℕ :=
  gaussians.flatMap (fun g =>
    let q := normalize g.rotation
    [q.x, q.y, q.z].map (fun v =>
      rustCastU8 (v * (if q.w < 0 then -(255 / 2) else 255 / 2) + 255 / 2)))

/-- The spherical-harmonics block: the `sh_data.extend_from_slice` loop —
each point's `spz_bytes`, concatenated, with `none` propagating a fired
length assert inside `spz_bytes`. -/
def shBlock : List UnpackedGaussian → Option (List ℕ)
  | [] => some []
  | g :: t =>
    match g.sphericalHarmonics.spzBytes, shBlock t with
    | some b, some rest => some (b ++ rest)
    | _, _ => none

/-- `write_spz_to_stream` (spz_format.rs), returning the bytes actually
written to the stream together with the termination status.  The
control flow is translated line by line: the homogeneity check runs
before any write; the header is written first; each block is built,
length-asserted (`panicked` when the assert fails, with only the bytes
already flushed) and written in the source order.  The rotation-length
assert compares against `gaussians.len() * 4` exactly as the source
does, although the loop pushes 3 bytes per point. -/
def writeSpzToStreamWith (alphaByte : ℚ → ℕ) (normalize : Quat → Quat)
    (gaussians : List UnpackedGaussian) (omitSphericalHarmonics : Bool) :
    List ℕ × WriteStatus :=
  let orders := (gaussians.map (fun g => g.sphericalHarmonics.ord.index)).dedup
  if orders.length ≠ 1 then
    ([], .err "All gaussians must have the same spherical harmonic degree")
  else
    match SphericalHarmonicsOrder.orderForDegree (orders.headD 0) with
    | none => ([], .err "Invalid SH degree")
    | some order =>
      let positions := gaussians.flatMap (fun g => [g.position.x, g.position.y, g.position.z])
      let fractionalBits := computeFixedPointFractionalBitsCore positions
      let header := Header.new gaussians.length order.index fractionalBits 0
      let written := header.toBytes
      let positionData := positionBlock gaussians fractionalBits
      if positionData.length ≠ gaussians.length * 3 * 3 then (written, .panicked) else
      let written := written ++ positionData
      let alphaData := alphaBlock alphaByte gaussians
      if alphaData.length ≠ gaussians.length then (written, .panicked) else
      let written := written ++ alphaData
      let colorData := colorBlock gaussians
      if colorData.length ≠ gaussians.length * 3 then (written, .panicked) else
      let written := written ++ colorData
      let scaleData := scaleBlock gaussians
      if scaleData.length ≠ gaussians.length * 3 then (written, .panicked) else
      let written := written ++ scaleData
      let rotationData := rotationBlock normalize gaussians
      if rotationData.length ≠ gaussians.length * 4 then (written, .panicked) else
      let written := written ++ rotationData
      if omitSphericalHarmonics then (written, .ok)
      else
        match shBlock gaussians with
        | none => (written, .panicked)
        | some shData => (written ++ shData, .ok)

/-- `read_exact` on an in-memory stream: take `n` bytes or fail. -/
def readExact (bytes : List ℕ) (n : ℕ) : Except String (List ℕ × List ℕ) :=
  if n ≤ bytes.length then .ok (bytes.take n, bytes.drop n) else .error "unexpected EOF"

/-- `chunks_exact(3)` over a byte list: full groups of three, remainder
dropped. -/
def byteTriples : List ℕ → List (List ℕ)
  | a :: b :: c :: rest => [a, b, c] :: byteTriples rest
  | _ => []

/-- Rust `chunks(k)`: split into consecutive pieces of `k` elements, the
last piece possibly shorter. -/
def chunksOf (k : ℕ) (l : List ℕ) : List (List ℕ) :=
  if l = [] ∨ k = 0 then []
  else l.take k :: chunksOf k (l.drop k)
termination_by l.length
decreasing_by
  rename_i h
  rw [not_or] at h
  have h1 : 0 < l.length := List.length_pos.mpr h.1
  have h2 : 0 < k := Nat.pos_of_ne_zero h.2
  simp only [List.length_drop]
  omega

/-- The rational core of `inv_sigmoid` (support.rs): the decoded alpha is
the real logarithm of this value. -/
def invSigmoidArg (x : ℚ) : ℚ :=
  x / (1 - x)

/-- One decoded point of `load_spz_from_stream`.  The rotation w and the
alpha pass through a square root and a logarithm respectively, so the
record stores their exact rational arguments: the decoded w component is
`Real.sqrt rotWSq` and the decoded alpha is `Real.log alphaPreLog`. -/
structure LoadedGaussian where
  position : V3
  scales : V3
  rotXYZ : V3
  rotWSq : ℚ
  alphaPreLog : ℚ
  color : V3
  sphericalHarmonics : SphericalHarmonics
deriving DecidableEq, Repr

/-- `load_spz_from_stream` (spz_format.rs): read and validate the 16-byte
header, then read the position, alpha, color, scale, rotation and
(for a positive SH degree) spherical-harmonics blocks in order,
applying the inverse quantizers, and zip the per-attribute lists into
point records. -/
def loadSpzFromStream (bytes : List ℕ) : Except String (List LoadedGaussian) := do
  let (headerBytes, rest) ← readExact bytes 16
  let header := Header.fromBytes headerBytes
  if ¬ header.isValid then throw "Invalid header" else
  let n := header.numPoints
  let (positionData, rest) ← readExact rest (n * 3 * 3)
  let positions := chunk3 ((byteTriples positionData).map
    (fun c => fp24From c header.fractionalBits))
  let (alphaData, rest) ← readExact rest n
  let alphas := alphaData.map (fun b => invSigmoidArg ((b : ℚ) / 255))
  let (colorData, rest) ← readExact rest (n * 3)
  let colors := chunk3 (colorData.map (fun b => ((b : ℚ) / 255 - 1 / 2) / (3 / 20)))
  let (scaleData, rest) ← readExact rest (n * 3)
  let scales := chunk3 (scaleData.map (fun b => (b : ℚ) / 16 - 10))
  let (rotationData, rest) ← readExact rest (n * 3)
  let rotations := (chunk3 (rotationData.map (fun b => (b : ℚ)))).map (fun v =>
    let xyz : V3 := ⟨v.x * 1 / (255 / 2) + -1, v.y * 1 / (255 / 2) + -1, v.z * 1 / (255 / 2) + -1⟩
    (xyz, max 0 (1 - (xyz.x * xyz.x + xyz.y * xyz.y + xyz.z * xyz.z))))
  match SphericalHarmonicsOrder.orderForDegree header.shDegree with
  | none => throw "Invalid SH degree"
  | some order => do
    let shs ←
      if order ≠ .order0 then do
        let scalarCount := order.scalarCount
        let (shData, _) ← readExact rest (n * scalarCount)
        (chunksOf scalarCount shData).mapM (fun c =>
          match SphericalHarmonics.fromSpzBytes c with
          | some sh => pure sh
          | none => throw "Invalid number of values for SphericalHarmonics")
      else
        pure (List.replicate n SphericalHarmonics.default)
    return (positions.zip (scales.zip (rotations.zip (alphas.zip (colors.zip shs))))).map
      (fun r =>
        { position := r.1, scales := r.2.1, rotXYZ := r.2.2.1.1, rotWSq := r.2.2.1.2,
          alphaPreLog := r.2.2.2.1, color := r.2.2.2.2.1,
          sphericalHarmonics := r.2.2.2.2.2 })

/-- The literal 35-byte stream of the known-vector test:
`4E475350 02000000 01000000 000C0000 00400600 800C00C0 F9B8A693 89B090B0 8080FF`. -/
def c1Bytes : List ℕ :=
  [0x4E, 0x47, 0x53, 0x50,
   0x02, 0x00, 0x00, 0x00,
   0x01, 0x00, 0x00, 0x00,
   0x00, 0x0C, 0x00, 0x00,
   0x00, 0x40, 0x06,
   0x00, 0x80, 0x0C,
   0x00, 0xC0, 0xF9,
   0xB8,
   0xA6, 0x93, 0x89,
   0xB0, 0x90, 0xB0,
   0x80, 0x80, 0xFF]

/-- `sigmoid` (support.rs): `1 / (1 + exp(-x))`, over the reals (exp is
transcendental, so this definition lives outside the rational layer). -/
noncomputable def sigmoid (x : ℝ) : ℝ :=
  1 / (1 + Real.exp (-x))

/-- `inv_sigmoid` (support.rs): `ln(x / (1 - x))`. -/
noncomputable def invSigmoid (x : ℝ) : ℝ :=
  Real.log (x / (1 - x))

/-- The opacity byte the encoder produces for one alpha value:
`(sigmoid(alpha) * 255.0) as u8` (truncating saturating cast). -/
noncomputable def writeAlphaByte (alpha : ℝ) : ℤ :=
  max 0 (min 255 ⌊sigmoid alpha * 255⌋)

/-- The length classification used by `set_values`, as a total function on
the accepted lengths 0..=15 (values above 15 are rejected by
`set_values` itself). -/
def lengthOrder (n : ℕ) : SphericalHarmonicsOrder :=
  if n = 0 then .order0
  else if n ≤ 3 then .order1
  else if n ≤ 8 then .order2
  else .order3

/-- The point decoded from `c1Bytes` (all fields computed by the embedded
decoder; see the known-vector theorem). -/
def c1Point : LoadedGaussian :=
  { position := ⟨100, 200, -100⟩
    scales := ⟨1, -1, 1⟩
    rotXYZ := ⟨1 / 255, 1 / 255, 1⟩
    rotWSq := 0
    alphaPreLog := 184 / 71
    color := ⟨154 / 153, 26 / 51, 38 / 153⟩
    sphericalHarmonics := SphericalHarmonics.default }

/-- C8: for value in {0.0, 1.0, -1.0} and fractional_bits in {0, 8}, the
3-byte fixed-point round trip returns exactly the original value. -/
theorem fp24_roundtrip_exact_on_units :
    fp24From (fp24Into 0 0) 0 = 0 ∧ fp24From (fp24Into 1 0) 0 = 1 ∧
    fp24From (fp24Into (-1) 0) 0 = -1 ∧ fp24From (fp24Into 0 8) 8 = 0 ∧
    fp24From (fp24Into 1 8) 8 = 1 ∧ fp24From (fp24Into (-1) 8) 8 = -1 := by
  refine ⟨?_, ?_, ?_, ?_, ?_, ?_⟩ <;>
    norm_num [fp24From, fp24Into, rustRound, rustCastI32] <;> (try simp) <;> (try norm_num)

/-- C10: `Header::is_valid` holds exactly when the magic is 0x5053474E,
the version is 2 and the SH degree is at most 3; the fractional-bits,
flags and reserved bytes are never inspected, so every value of those
fields leaves validity unchanged. -/
theorem header_is_valid_iff (h : Header) :
    (h.isValid = true ↔ h.magic = 0x5053474e ∧ h.version = 2 ∧ h.shDegree ≤ 3) ∧
    ∀ fb fl rv, Header.isValid ⟨h.magic, h.version, h.numPoints, h.shDegree, fb, fl, rv⟩ =
      h.isValid := by
  refine ⟨?_, fun fb fl rv => rfl⟩
  simp [Header.isValid, Bool.and_eq_true, beq_iff_eq, decide_eq_true_eq, and_assoc]

/-- C3 counterexample: on the all-zero singleton batch with a 24-bit
budget, `compute_fixed_point_fractional_bits` returns 0, not the maximum
fractional-bit count 23. -/
theorem compute_bits_zero_batch_returns_zero :
    computeFixedPointFractionalBits [0] 24 = some 0 ∧
    computeFixedPointFractionalBits [0] 24 ≠ some 23 := by
  refine ⟨?_, ?_⟩ <;>
    simp [computeFixedPointFractionalBits, computeFixedPointFractionalBitsCore,
      optimalFractionalBits]

/-- C3 amended: for every non-empty all-zero batch and a 24-bit budget,
`compute_fixed_point_fractional_bits` returns 0 — the zero maximum takes
the `value == 0.0` short-circuit of `optimal_fractional_bits`, not the
`24 - 0 - 1` formula. -/
theorem compute_bits_all_zero_batch (floats : List ℚ) (hne : floats ≠ [])
    (hz : ∀ x ∈ floats, x = 0) :
    computeFixedPointFractionalBits floats 24 = some 0 := by
  have hmax : ∀ l : List ℚ, (∀ x ∈ l, x = 0) →
      (l.map (fun v => (⌈|v|⌉ : ℚ))).foldr max 0 = 0 := by
    intro l
    induction l with
    | nil => intro _; rfl
    | cons a t ih =>
      intro hz0
      have ha : a = 0 := hz0 a (by simp)
      have ht : (t.map (fun v => (⌈|v|⌉ : ℚ))).foldr max 0 = 0 :=
        ih (fun y hy => hz0 y (by simp [hy]))
      simp [ha, ht]
  simp [computeFixedPointFractionalBits, computeFixedPointFractionalBitsCore,
    hmax floats hz, optimalFractionalBits]

/-- C3 witness: the amended theorem applied to the concrete batch
`[0, 0]`. -/
theorem compute_bits_all_zero_batch_witness :
    ([(0 : ℚ), 0] ≠ []) ∧ computeFixedPointFractionalBits [0, 0] 24 = some 0 :=
  ⟨by simp, compute_bits_all_zero_batch [0, 0] (by simp) (by simp)⟩

/-- Helper: resizing a list that is not longer than the target keeps it
as a prefix and reaches exactly the target length. -/
theorem resizeTo_spec (vs : List V3) (n : ℕ) (h : vs.length ≤ n) :
    (SphericalHarmonics.resizeTo vs n).length = n ∧
    (SphericalHarmonics.resizeTo vs n).take vs.length = vs := by
  unfold SphericalHarmonics.resizeTo
  rw [List.take_of_length_le h]
  refine ⟨?_, List.take_left vs _⟩
  simp
  omega

/-- C4 counterexample: a vector list of length 1 (not in {0, 3, 8, 15})
is not rejected by `set_values`; it is zero-padded into the Order1
variant. -/
theorem set_values_length_one_not_rejected :
    SphericalHarmonics.setValues [⟨1, 2, 3⟩] =
      some ⟨.order1, [⟨1, 2, 3⟩, v3zero, v3zero]⟩ ∧
    SphericalHarmonics.setValues [⟨1, 2, 3⟩] ≠ none ∧
    (⟨.order1, [⟨1, 2, 3⟩, v3zero, v3zero]⟩ : SphericalHarmonics).ord =
      .order1 := by
  refine ⟨rfl, ?_, rfl⟩
  simp [SphericalHarmonics.setValues, SphericalHarmonics.resizeTo]

/-- C4 amended: `set_values` classifies by length — `none` (panic)
exactly above 15 vectors, and an accepted list of length n produces the
order `lengthOrder n` (0 for 0, 1 for 1..3, 2 for 4..8, 3 for 9..15),
zero-padded to that order's vector count with the input kept as a
prefix; in particular lengths 0, 3, 8, 15 yield orders 0, 1, 2, 3
exactly. -/
theorem set_values_length_classification (vs : List V3) :
    (SphericalHarmonics.setValues vs = none ↔ 15 < vs.length) ∧
    ∀ sh, SphericalHarmonics.setValues vs = some sh →
      sh.ord = lengthOrder vs.length ∧
      sh.values.length = sh.ord.vectorCount ∧
      sh.values.take vs.length = vs := by
  constructor
  · unfold SphericalHarmonics.setValues
    split_ifs with h1 h2 h3 h4 <;> simp <;> omega
  · intro sh hsh
    unfold SphericalHarmonics.setValues at hsh
    split_ifs at hsh with h1 h2 h3 h4 <;> injection hsh with hsh <;> subst hsh
    · constructor
      · simp [lengthOrder, h1]
      · refine ⟨rfl, ?_⟩
        simp [List.length_eq_zero.mp h1]
    · obtain ⟨hlen, htake⟩ := resizeTo_spec vs 3 h2
      exact ⟨by simp [lengthOrder, h1, h2], by
        simpa [SphericalHarmonicsOrder.vectorCount] using hlen, htake⟩
    · obtain ⟨hlen, htake⟩ := resizeTo_spec vs 8 h3
      exact ⟨by simp [lengthOrder, h1, h2, h3], by
        simpa [SphericalHarmonicsOrder.vectorCount] using hlen, htake⟩
    · obtain ⟨hlen, htake⟩ := resizeTo_spec vs 15 h4
      exact ⟨by simp [lengthOrder, h1, h2, h3, h4], by
        simpa [SphericalHarmonicsOrder.vectorCount] using hlen, htake⟩

/-- C4 witness: the amended classification applied to the concrete
length-1 list. -/
theorem set_values_length_classification_witness :
    SphericalHarmonics.setValues [⟨1, 2, 3⟩] =
      some ⟨.order1, [⟨1, 2, 3⟩, v3zero, v3zero]⟩ ∧
    (⟨.order1, [⟨1, 2, 3⟩, v3zero, v3zero]⟩ : SphericalHarmonics).ord =
      lengthOrder [(⟨1, 2, 3⟩ : V3)].length :=
  ⟨rfl, ((set_values_length_classification [⟨1, 2, 3⟩]).2 _ rfl).1⟩

/-- C9: encoding an empty point list fails the homogeneity check (the
set of distinct SH orders is empty, not a singleton) and writes no
bytes, for every quantizer instance and omit flag. -/
theorem write_empty_list_is_error (alphaByte : ℚ → ℕ) (normalize : Quat → Quat)
    (omitFlag : Bool) :
    writeSpzToStreamWith alphaByte normalize [] omitFlag =
      ([], .err "All gaussians must have the same spherical harmonic degree") := rfl

/-- Helper: the order index determines the order. -/
theorem shOrder_index_injective (a b : SphericalHarmonicsOrder)
    (h : a.index = b.index) : a = b := by
  cases a <;> cases b <;> simp_all [SphericalHarmonicsOrder.index]

/-- C7: a point list containing two points with different SH orders is
rejected before anything is written: the result is the homogeneity
error with an empty output stream. -/
theorem write_heterogeneous_orders_is_error (alphaByte : ℚ → ℕ)
    (normalize : Quat → Quat) (gs : List UnpackedGaussian) (omitFlag : Bool)
    (g1 g2 : UnpackedGaussian) (h1 : g1 ∈ gs) (h2 : g2 ∈ gs)
    (hne : g1.sphericalHarmonics.ord ≠ g2.sphericalHarmonics.ord) :
    writeSpzToStreamWith alphaByte normalize gs omitFlag =
      ([], .err "All gaussians must have the same spherical harmonic degree") := by
  have hlen : ((gs.map (fun g => g.sphericalHarmonics.ord.index)).dedup).length ≠ 1 := by
    intro hl
    obtain ⟨a, ha⟩ := List.length_eq_one.mp hl
    have m1 : g1.sphericalHarmonics.ord.index ∈
        (gs.map (fun g => g.sphericalHarmonics.ord.index)).dedup :=
      List.mem_dedup.mpr (List.mem_map_of_mem _ h1)
    have m2 : g2.sphericalHarmonics.ord.index ∈
        (gs.map (fun g => g.sphericalHarmonics.ord.index)).dedup :=
      List.mem_dedup.mpr (List.mem_map_of_mem _ h2)
    rw [ha] at m1 m2
    simp at m1 m2
    exact hne (shOrder_index_injective _ _ (m1.trans m2.symm))
  simp only [writeSpzToStreamWith]
  rw [if_pos hlen]

/-- A sample point carrying Order1 spherical harmonics, otherwise
default. -/
def g1Sample : UnpackedGaussian :=
  { UnpackedGaussian.default with
    sphericalHarmonics := ⟨.order1, [v3zero, v3zero, v3zero]⟩ }

/-- C7 witness: the heterogeneity theorem applied to a concrete
two-point list mixing orders 0 and 1. -/
theorem write_heterogeneous_orders_is_error_witness :
    (UnpackedGaussian.default ∈ [UnpackedGaussian.default, g1Sample]) ∧
    (g1Sample ∈ [UnpackedGaussian.default, g1Sample]) ∧
    UnpackedGaussian.default.sphericalHarmonics.ord ≠ g1Sample.sphericalHarmonics.ord ∧
    writeSpzToStreamWith (fun _ => 0) (fun q => q)
        [UnpackedGaussian.default, g1Sample] false =
      ([], .err "All gaussians must have the same spherical harmonic degree") :=
  ⟨by simp, by simp, by decide,
    write_heterogeneous_orders_is_error (fun _ => 0) (fun q => q)
      [UnpackedGaussian.default, g1Sample] false
      UnpackedGaussian.default g1Sample (by simp) (by simp) (by decide)⟩

/-- Helper: the fixed-point encoding of one component is three bytes. -/
theorem fp24Into_length (v : ℚ) (b : ℕ) : (fp24Into v b).length = 3 := rfl

/-- Helper: the position block is 9 bytes per point. -/
theorem positionBlock_length (gs : List UnpackedGaussian) (fb : ℕ) :
    (positionBlock gs fb).length = gs.length * 9 := by
  induction gs with
  | nil => rfl
  | cons g t ih =>
    simp [positionBlock, fp24Into] at ih ⊢
    omega

/-- Helper: the alpha block is 1 byte per point. -/
theorem alphaBlock_length (f : ℚ → ℕ) (gs : List UnpackedGaussian) :
    (alphaBlock f gs).length = gs.length := by
  simp [alphaBlock]

/-- Helper: the color block is 3 bytes per point. -/
theorem colorBlock_length (gs : List UnpackedGaussian) :
    (colorBlock gs).length = gs.length * 3 := by
  induction gs with
  | nil => rfl
  | cons g t ih =>
    simp [colorBlock] at ih ⊢
    omega

/-- Helper: the scale block is 3 bytes per point. -/
theorem scaleBlock_length (gs : List UnpackedGaussian) :
    (scaleBlock gs).length = gs.length * 3 := by
  induction gs with
  | nil => rfl
  | cons g t ih =>
    simp [scaleBlock] at ih ⊢
    omega

/-- Helper: the rotation loop pushes exactly 3 bytes per point (x, y, z
of the normalized quaternion; w is omitted). -/
theorem rotationBlock_length (n : Quat → Quat) (gs : List UnpackedGaussian) :
    (rotationBlock n gs).length = gs.length * 3 := by
  induction gs with
  | nil => rfl
  | cons g t ih =>
    simp [rotationBlock] at ih ⊢
    omega

/-- Helper: `order_for_degree` inverts `index`. -/
theorem orderForDegree_index (o : SphericalHarmonicsOrder) :
    SphericalHarmonicsOrder.orderForDegree o.index = some o := by
  cases o <;> rfl

/-- Helper: every point list that passes the homogeneity check (a single
distinct SH order) drives `write_spz_to_stream` into the rotation-block
length assert — the loop produces `3 * N` bytes while the assert demands
`4 * N`, and a homogeneous list is necessarily non-empty. -/
theorem writer_panics_of_homogeneous (alphaByte : ℚ → ℕ) (normalize : Quat → Quat)
    (gs : List UnpackedGaussian) (omitFlag : Bool)
    (hhomog : ((gs.map (fun g => g.sphericalHarmonics.ord.index)).dedup).length = 1) :
    (writeSpzToStreamWith alphaByte normalize gs omitFlag).2 = .panicked := by
  obtain ⟨a, ha⟩ := List.length_eq_one.mp hhomog
  have hmem : a ∈ gs.map (fun g => g.sphericalHarmonics.ord.index) := by
    have : a ∈ (gs.map (fun g => g.sphericalHarmonics.ord.index)).dedup := by
      rw [ha]; simp
    exact List.mem_dedup.mp this
  obtain ⟨g, hg, hga⟩ := List.mem_map.mp hmem
  have hN : 0 < gs.length := List.length_pos.mpr (List.ne_nil_of_mem hg)
  simp only [writeSpzToStreamWith]
  rw [if_neg (by simp [hhomog])]
  rw [ha]
  simp only [List.headD]
  rw [← hga, orderForDegree_index]
  simp only
  rw [if_neg (by rw [positionBlock_length]; omega)]
  rw [if_neg (by rw [alphaBlock_length]; omega)]
  rw [if_neg (by rw [colorBlock_length]; omega)]
  rw [if_neg (by rw [scaleBlock_length]; omega)]
  rw [if_pos (by rw [rotationBlock_length]; omega)]

/-- C2 (refuted by the code): on every list the encoder accepts
(homogeneous SH order), the rotation loop does write exactly 3 bytes per
point, but the source's internal assertion compares against
`gaussians.len() * 4`, so it fails and the call panics instead of
completing. -/
theorem rotation_assert_fails_on_every_accepted_list (alphaByte : ℚ → ℕ)
    (normalize : Quat → Quat) (gs : List UnpackedGaussian) (omitFlag : Bool)
    (hhomog : ((gs.map (fun g => g.sphericalHarmonics.ord.index)).dedup).length = 1) :
    (rotationBlock normalize gs).length = gs.length * 3 ∧
    (rotationBlock normalize gs).length ≠ gs.length * 4 ∧
    (writeSpzToStreamWith alphaByte normalize gs omitFlag).2 = .panicked := by
  have hne : gs ≠ [] := by
    rintro rfl
    simp at hhomog
  have hN : 0 < gs.length := List.length_pos.mpr hne
  refine ⟨rotationBlock_length normalize gs, ?_,
    writer_panics_of_homogeneous alphaByte normalize gs omitFlag hhomog⟩
  rw [rotationBlock_length]
  omega

/-- C2 witness: the rotation-assert failure on the concrete singleton
list holding the default gaussian. -/
theorem rotation_assert_fails_on_every_accepted_list_witness :
    (([UnpackedGaussian.default].map
      (fun g => g.sphericalHarmonics.ord.index)).dedup).length = 1 ∧
    (writeSpzToStreamWith (fun _ => 127) (fun q => q)
      [UnpackedGaussian.default] false).2 = .panicked :=
  ⟨by simp, (rotation_assert_fails_on_every_accepted_list (fun _ => 127) (fun q => q)
    [UnpackedGaussian.default] false (by simp)).2.2⟩

/-- Helper: flattening vectors gives three scalars per vector. -/
theorem scalars_length (sh : SphericalHarmonics) :
    sh.scalars.length = sh.values.length * 3 := by
  unfold SphericalHarmonics.scalars
  induction sh.values with
  | nil => rfl
  | cons v t ih =>
    simp at ih ⊢
    omega

/-- Helper: on a well-formed variant (vector count matching the order)
of a non-zero order, `spz_bytes` passes its assert, has the at-least-9
scalars the first loop indexes unconditionally, and yields exactly
`scalar_count(order)` bytes. -/
theorem spzBytes_length (sh : SphericalHarmonics)
    (hwf : sh.values.length = sh.ord.vectorCount) (ho : sh.ord ≠ .order0) :
    ∃ bytes, sh.spzBytes = some bytes ∧ bytes.length = sh.ord.scalarCount := by
  have hs : sh.scalars.length = sh.ord.scalarCount := by
    rw [scalars_length, hwf, SphericalHarmonicsOrder.scalarCount]
  have h9 : 9 ≤ sh.ord.scalarCount := by
    cases hord : sh.ord
    · exact absurd hord ho
    all_goals decide
  refine ⟨(sh.scalars.take 9).map (fun x => quantizeSh x 8) ++
    (sh.scalars.drop 9).map (fun x => quantizeSh x 16), ?_, ?_⟩
  · simp [SphericalHarmonics.spzBytes, hs, h9]
  · simp [hs]
    omega

/-- Helper: for a list of well-formed points all of a non-zero order
`o`, the SH block assembles and holds `scalar_count(o)` bytes per
point. -/
theorem shBlock_length (o : SphericalHarmonicsOrder) (gs : List UnpackedGaussian)
    (hwf : ∀ g ∈ gs, g.sphericalHarmonics.values.length =
      g.sphericalHarmonics.ord.vectorCount)
    (hord : ∀ g ∈ gs, g.sphericalHarmonics.ord = o) (ho : o ≠ .order0) :
    ∃ data, shBlock gs = some data ∧ data.length = gs.length * o.scalarCount := by
  induction gs with
  | nil => exact ⟨[], rfl, by simp⟩
  | cons g t ih =>
    obtain ⟨bytes, hb, hblen⟩ := spzBytes_length g.sphericalHarmonics (hwf g (by simp))
      (by rw [hord g (by simp)]; exact ho)
    obtain ⟨data, hd, hdlen⟩ :=
      ih (fun x hx => hwf x (by simp [hx])) (fun x hx => hord x (by simp [hx]))
    refine ⟨bytes ++ data, ?_, ?_⟩
    · simp [shBlock, hb, hd]
    · have hgo : g.sphericalHarmonics.ord = o := hord g (by simp)
      simp [hblen, hdlen, hgo]
      ring

/-- C5 (doubly refuted by the code): for the non-zero orders the SH
block does hold exactly `scalar_count(order)` quantized SH bytes per
point, but the order-0 half of the claim fails twice — `spz_bytes`
itself panics on an Order0 variant (the unconditional `while j < 9`
loop indexes the empty scalar list out of bounds), and on every
accepted (homogeneous, hence non-empty) list `write_spz_to_stream`
panics at the rotation-length assert before the SH step, so it never
returns success. -/
theorem sh_block_exact_but_writer_never_succeeds (alphaByte : ℚ → ℕ)
    (normalize : Quat → Quat) (gs : List UnpackedGaussian) (o : SphericalHarmonicsOrder)
    (hwf : ∀ g ∈ gs, g.sphericalHarmonics.values.length =
      g.sphericalHarmonics.ord.vectorCount)
    (hord : ∀ g ∈ gs, g.sphericalHarmonics.ord = o) (ho : o ≠ .order0)
    (hhomog : ((gs.map (fun g => g.sphericalHarmonics.ord.index)).dedup).length = 1) :
    (∃ data, shBlock gs = some data ∧ data.length = gs.length * o.scalarCount) ∧
    SphericalHarmonics.default.spzBytes = none ∧
    shBlock [UnpackedGaussian.default] = none ∧
    (writeSpzToStreamWith alphaByte normalize gs false).2 = .panicked :=
  ⟨shBlock_length o gs hwf hord ho, rfl, rfl,
    writer_panics_of_homogeneous alphaByte normalize gs false hhomog⟩

/-- C5 witness: the singleton order-1 list — its SH block is exactly 9
quantized bytes (scalar_count(order1) per point), while the order-0
`spz_bytes` panics and the writer call panics instead of succeeding. -/
theorem sh_block_exact_but_writer_never_succeeds_witness :
    shBlock [g1Sample] = some [128, 128, 128, 128, 128, 128, 128, 128, 128] ∧
    ([(128 : ℕ), 128, 128, 128, 128, 128, 128, 128, 128]).length =
      [g1Sample].length * SphericalHarmonicsOrder.scalarCount .order1 ∧
    SphericalHarmonics.default.spzBytes = none ∧
    shBlock [UnpackedGaussian.default] = none ∧
    (writeSpzToStreamWith (fun _ => 0) (fun q => q) [g1Sample] false).2 =
      .panicked := by
  have hmain := sh_block_exact_but_writer_never_succeeds (fun _ => 0) (fun q => q)
    [g1Sample] .order1
    (by simp [g1Sample, UnpackedGaussian.default, SphericalHarmonicsOrder.vectorCount])
    (by simp [g1Sample, UnpackedGaussian.default])
    (by simp)
    (by simp [g1Sample, UnpackedGaussian.default])
  refine ⟨?_, by simp [SphericalHarmonicsOrder.scalarCount,
    SphericalHarmonicsOrder.vectorCount], hmain.2.1, hmain.2.2.1, hmain.2.2.2⟩
  norm_num [shBlock, SphericalHarmonics.spzBytes, SphericalHarmonics.scalars,
    g1Sample, UnpackedGaussian.default, quantizeSh, rustRound, v3zero,
    SphericalHarmonicsOrder.scalarCount, SphericalHarmonicsOrder.vectorCount,
    List.take, List.drop]
  decide

/-- C6 counterexample: at alpha = 0 the encoder's opacity byte is 127 —
the truncating cast of sigmoid(0) * 255 = 127.5 — while
round(sigmoid(0) * 255) is 128, so the encoder does not round. -/
theorem write_alpha_byte_truncates_not_rounds :
    writeAlphaByte 0 = 127 ∧ round (sigmoid 0 * 255 : ℝ) = 128 ∧ (127 : ℤ) ≠ 128 := by
  have hs : sigmoid 0 = 1 / 2 := by
    unfold sigmoid
    rw [neg_zero, Real.exp_zero]
    norm_num
  refine ⟨?_, ?_, by omega⟩
  · unfold writeAlphaByte
    rw [hs]
    norm_num
  · rw [hs]
    norm_num [round_eq]

/-- C6 amended: the encoder's opacity byte is the truncation
`⌊sigmoid(alpha) * 255⌋` (the saturating cast never clamps, because
sigmoid lands strictly inside (0, 1)), and the decoder maps byte b to
`ln((b/255) / (1 - b/255))`. -/
theorem alpha_quantizer_truncates_and_decoder_is_log (α : ℝ) (b : ℕ) :
    writeAlphaByte α = ⌊sigmoid α * 255⌋ ∧
    Real.log ((invSigmoidArg ((b : ℚ) / 255) : ℚ) : ℝ) = invSigmoid ((b : ℝ) / 255) := by
  constructor
  · have h0 : 0 < sigmoid α := by
      unfold sigmoid
      positivity
    have h1 : sigmoid α < 1 := by
      unfold sigmoid
      rw [div_lt_one (by positivity)]
      linarith [Real.exp_pos (-α)]
    have hf0 : (0 : ℤ) ≤ ⌊sigmoid α * 255⌋ := Int.floor_nonneg.mpr (by positivity)
    have hf1 : ⌊sigmoid α * 255⌋ < 255 := Int.floor_lt.mpr (by push_cast; nlinarith)
    unfold writeAlphaByte
    rw [min_eq_right (by omega), max_eq_right hf0]
  · unfold invSigmoid invSigmoidArg
    have hcast : ((((b : ℚ) / 255) / (1 - (b : ℚ) / 255) : ℚ) : ℝ) =
        ((b : ℝ) / 255) / (1 - (b : ℝ) / 255) := by
      push_cast
      ring
    rw [hcast]

/-- Helper: lower numeric bound on ln(184/71), obtained by comparing the
hundredth power of 184/71 with the 94th power of an upper bound on e. -/
theorem log_184_div_71_lower : (94 : ℝ) / 100 ≤ Real.log (184 / 71) := by
  have h2 : (Real.exp 1) ^ (94 : ℕ) ≤ (184 / 71 : ℝ) ^ (100 : ℕ) := by
    calc (Real.exp 1) ^ (94 : ℕ) ≤ (2.7182818286 : ℝ) ^ (94 : ℕ) :=
          pow_le_pow_left₀ (Real.exp_pos 1).le Real.exp_one_lt_d9.le 94
      _ ≤ (184 / 71 : ℝ) ^ (100 : ℕ) := by norm_num
  have h3 : Real.exp 94 ≤ (184 / 71 : ℝ) ^ (100 : ℕ) := by
    have he : Real.exp ((94 : ℕ) * (1 : ℝ)) = (Real.exp 1) ^ (94 : ℕ) := Real.exp_nat_mul 1 94
    rw [show ((94 : ℕ) * (1 : ℝ)) = 94 by norm_num] at he
    rw [he]
    exact h2
  have h4 : (94 : ℝ) ≤ Real.log ((184 / 71 : ℝ) ^ (100 : ℕ)) := by
    have h5 := Real.log_le_log (Real.exp_pos 94) h3
    rwa [Real.log_exp] at h5
  rw [Real.log_pow] at h4
  push_cast at h4
  linarith

/-- Helper: upper numeric bound on ln(184/71), by comparison with the
96th power of a lower bound on e. -/
theorem log_184_div_71_upper : Real.log (184 / 71 : ℝ) ≤ 96 / 100 := by
  have h2 : (184 / 71 : ℝ) ^ (100 : ℕ) ≤ (2.7182818283 : ℝ) ^ (96 : ℕ) := by norm_num
  have h3 : (2.7182818283 : ℝ) ^ (96 : ℕ) ≤ Real.exp 96 := by
    have he : Real.exp ((96 : ℕ) * (1 : ℝ)) = (Real.exp 1) ^ (96 : ℕ) := Real.exp_nat_mul 1 96
    rw [show ((96 : ℕ) * (1 : ℝ)) = 96 by norm_num] at he
    calc (2.7182818283 : ℝ) ^ (96 : ℕ) ≤ (Real.exp 1) ^ (96 : ℕ) :=
          pow_le_pow_left₀ (by norm_num) Real.exp_one_gt_d9.le 96
      _ = Real.exp 96 := he.symm
  have h4 : Real.log ((184 / 71 : ℝ) ^ (100 : ℕ)) ≤ 96 := by
    have h5 := Real.log_le_log (by positivity) (h2.trans h3)
    rwa [Real.log_exp] at h5
  rw [Real.log_pow] at h4
  push_cast at h4
  linarith

/-- C1: decoding the literal 35-byte known-vector stream succeeds with
exactly one point whose position is (100, 200, -100) and scales are
(1, -1, 1) exactly, whose rotation quaternion is within 1e-2 of
(0, 0, 1, 0) (the w component is the square root of the stored
`rotWSq`), whose alpha = ln(alphaPreLog) is within 1e-2 of 0.95, and
whose color is within 1e-2 of (1.0, 0.5, 0.25). -/
theorem known_vector_decode :
    loadSpzFromStream c1Bytes = .ok [c1Point] ∧
    c1Point.position = ⟨100, 200, -100⟩ ∧
    c1Point.scales = ⟨1, -1, 1⟩ ∧
    |c1Point.rotXYZ.x - 0| ≤ 1 / 100 ∧
    |c1Point.rotXYZ.y - 0| ≤ 1 / 100 ∧
    |c1Point.rotXYZ.z - 1| ≤ 1 / 100 ∧
    |Real.sqrt ((c1Point.rotWSq : ℚ) : ℝ) - 0| ≤ 1 / 100 ∧
    |Real.log ((c1Point.alphaPreLog : ℚ) : ℝ) - 95 / 100| ≤ 1 / 100 ∧
    |c1Point.color.x - 1| ≤ 1 / 100 ∧
    |c1Point.color.y - 1 / 2| ≤ 1 / 100 ∧
    |c1Point.color.z - 1 / 4| ≤ 1 / 100 := by
  refine ⟨?_, rfl, rfl, ?_, ?_, ?_, ?_, ?_, ?_, ?_, ?_⟩
  · norm_num [loadSpzFromStream, c1Bytes, readExact, Header.fromBytes, Header.isValid,
      byteTriples, chunk3, fp24From, invSigmoidArg, SphericalHarmonicsOrder.orderForDegree,
      SphericalHarmonics.default, c1Point, List.take, List.drop, List.headD,
      Bind.bind, Except.instMonad, Except.bind, Pure.pure, Except.pure, throw, throwThe,
      MonadExceptOf.throw, List.singleton]
  · rw [abs_le]
    constructor <;> norm_num [c1Point]
  · rw [abs_le]
    constructor <;> norm_num [c1Point]
  · rw [abs_le]
    constructor <;> norm_num [c1Point]
  · have h0 : c1Point.rotWSq = 0 := rfl
    rw [h0]
    push_cast
    rw [Real.sqrt_zero]
    norm_num
  · have h0 : c1Point.alphaPreLog = 184 / 71 := rfl
    rw [h0]
    have hcast : (((184 : ℚ) / 71 : ℚ) : ℝ) = 184 / 71 := by push_cast; ring
    rw [hcast, abs_le]
    constructor
    · linarith [log_184_div_71_lower]
    · linarith [log_184_div_71_upper]
  · rw [abs_le]
    constructor <;> norm_num [c1Point]
  · rw [abs_le]
    constructor <;> norm_num [c1Point]
  · rw [abs_le]
    constructor <;> norm_num [c1Point]

end Spz
